import Mathlib

/-!
Verification of `fontsearch.py` (julianbetz/fontsearch).

Shallow embedding: Python strings are modelled as `List Char` (a sequence of
Unicode code points, as in CPython), decoded font files as explicit data
structures, and the fallible decoders (`TTFont`, `TTCollection`, `T1Font`
constructors, which may raise on malformed bytes) as `Except Unit _` oracles
attached to each file.  Filesystem traversal (`os.walk` over the three fixed
font directories) is the external collaborator of the spec; we model the
stream of discovered files as an input list.
-/

set_option autoImplicit false

namespace Fontsearch

/-- A Python string: a sequence of Unicode code points. -/
abbrev Str := List Char

/-- One `cmap` subtable of a TrueType/OpenType font: its `isUnicode()` flag
and the keys of its `cmap` dictionary (code points it maps). -/
structure CmapTable where
  isUnicode : Bool
  cmap : List Nat
deriving DecidableEq

/-- One record of the `name` table, with its string already decoded via
`name.string.decode(name.getEncoding())`. -/
structure NameRecord where
  nameID : Nat
  string : Str
deriving DecidableEq

/-- A decoded `TTFont`: the subtables of `font['cmap'].tables` and the
records of `font['name'].names`. -/
structure TTFontData where
  cmapTables : List CmapTable
  names : List NameRecord
deriving DecidableEq

/-- `UNREADABLE_FILE_TYPES = {'.pfa', '.pfb', '.gsf', '.pcf'}` (line 40). -/
def UNREADABLE_FILE_TYPES : List Str :=
  [".pfa".data, ".pfb".data, ".gsf".data, ".pcf".data]

/-- The extensions dispatched to the single-font TTF path (line 136). -/
def TTF_EXTENSIONS : List Str := [".ttf".data, ".otf".data, ".woff2".data]

/-- `is_supporting_ttf` (lines 43-55):
`any(table.isUnicode() and character in table.cmap for table in font['cmap'].tables)`. -/
def is_supporting_ttf (font : TTFontData) (character : Nat) : Bool :=
  font.cmapTables.any (fun table => table.isUnicode && table.cmap.contains character)

/-- Membership test of the regex class `[0-9A-F]` (uppercase hex digit). -/
def isUpperHexDigit (c : Char) : Bool :=
  ('0' ≤ c && c ≤ '9') || ('A' ≤ c && c ≤ 'F')

/-- `re.fullmatch(r'uni[0-9A-F]+', key)` (line 71): the whole name is `uni`
followed by one or more uppercase hexadecimal digits. -/
def uniFullmatch (key : Str) : Bool :=
  (key.take 3 == "uni".data) && !(key.drop 3).isEmpty
    && (key.drop 3).all isUpperHexDigit

/-- Numeric value of one uppercase hexadecimal digit. -/
def hexDigitVal (c : Char) : Nat :=
  if c ≤ '9' then c.toNat - '0'.toNat else c.toNat - 'A'.toNat + 10

/-- `int(s, 16)` for a string of hex digits (line 72). -/
def hexVal (s : Str) : Nat :=
  s.foldl (fun acc c => 16 * acc + hexDigitVal c) 0

/-- `ord(key)` for a one-character string; only evaluated under the
`len(key) == 1` guard (line 70). -/
def ord1 : Str → Nat
  | [c] => c.toNat
  | _ => 0

/-- The per-glyph-name condition of the loop body of `is_supporting_t1`
(lines 70-72): `(len(key) == 1 and character == ord(key)) or
(re.fullmatch(r'uni[0-9A-F]+', key) and character == int(key[3:], 16))`. -/
def glyphMatches (key : Str) (character : Nat) : Bool :=
  (key.length == 1 && character == ord1 key)
    || (uniFullmatch key && character == hexVal (key.drop 3))

/-- `is_supporting_t1` (lines 58-74): iterate over the glyph-set keys,
return `True` on the first matching name, `None` after exhausting the set.
`some true` models Python `True`; `none` models Python `None`;
`some false` (Python `False`) is never produced. -/
def is_supporting_t1 : List Str → Nat → Option Bool
  | [], _ => none
  | key :: keys, character =>
    if glyphMatches key character then some true
    else is_supporting_t1 keys character

/-- The scanning loop of `get_ttf_family` (lines 85-95), with the mutable
`family` as an accumulator; `subfamily` is only ever assigned together with
an immediate `break`, so it needs no accumulator. -/
def famLoop : List NameRecord → Str → Str × Str
  | [], family => (family, [])
  | n :: ns, family =>
    if n.nameID = 1 then
      (if family = [] then famLoop ns n.string else (family, []))
    else if n.nameID = 2 ∧ family ≠ [] then (family, n.string)
    else famLoop ns family

/-- `get_ttf_family` (lines 77-95). -/
def get_ttf_family (font : TTFontData) : Str × Str :=
  famLoop font.names []

/-- `posixpath.basename`: everything after the last `'/'`. -/
def basename (p : Str) : Str :=
  (p.reverse.takeWhile (fun c => c ≠ '/')).reverse

/-- `posixpath.splitext` restricted to the part after the last `'/'`:
split at the last dot, unless the characters before it are all dots
(leading dots do not start an extension). -/
def splitextBase (b : Str) : Str × Str :=
  let tailLen := (b.reverse.takeWhile (fun c => c ≠ '.')).length
  if tailLen = b.length then (b, [])
  else
    let stemLen := b.length - tailLen - 1
    if (b.take stemLen).any (fun c => c ≠ '.') then (b.take stemLen, b.drop stemLen)
    else (b, [])

/-- `posixpath.splitext`: the directory part is never searched for a dot. -/
def splitext (p : Str) : Str × Str :=
  let b := basename p
  let se := splitextBase b
  (p.take (p.length - b.length) ++ se.1, se.2)

/-- `posixpath.join` of two components (line 134). -/
def join (a b : Str) : Str :=
  if b.head? = some '/' then b
  else if a = [] ∨ a.getLast? = some '/' then a ++ b
  else a ++ '/' :: b

/-- `s.rsplit(c, 1)`: split at the last occurrence of `c`, if any
(line 109). -/
def rsplit1 (c : Char) : Str → List Str
  | [] => [[]]
  | x :: xs =>
    match rsplit1 c xs with
    | [a, b] => [x :: a, b]
    | [a] => if x = c then [[], a] else [x :: a]
    | r => r

/-- `get_t1_family` (lines 98-113): strip the extension from the base name,
split on the last hyphen. -/
def get_t1_family (file_path : Str) : Str × Str :=
  match rsplit1 '-' (splitext (basename file_path)).1 with
  | [a, b] => (a, b)
  | [a] => (a, [])
  | _ => ([], [])

/-- One observable action of `get_supporting_fonts`: a yielded
(family, subfamily) tuple, or one of the two stderr diagnostics
(each carrying the `file_path` interpolated into the message). -/
inductive Event where
  | yieldId : Str × Str → Event
  | diagUndetermined : Str → Event
  | diagUnreadable : Str → Event
deriving DecidableEq

/-- A file handed to the dispatcher by `os.walk`: its directory, its name,
and the outcome each decoder would have on its bytes (`Except.error ()`
models the constructor raising on malformed data).  Which decoder actually
runs — if any — is decided by the dispatch below. -/
structure FSFile where
  dirpath : Str
  filename : Str
  ttf : Except Unit TTFontData
  ttc : Except Unit (List TTFontData)
  t1 : Except Unit (List Str)

/-- The `.t1` branch after decoding (lines 147-153): `None` prints the
"Unable to determine support" diagnostic, `True` yields the filename-derived
identity, `False` (unreachable) yields nothing. -/
def t1Events (file_path : Str) (supporting : Option Bool) : List Event :=
  match supporting with
  | none => [.diagUndetermined file_path]
  | some b => if b then [.yieldId (get_t1_family file_path)] else []

/-- The per-file body of `get_supporting_fonts` (lines 133-159): dispatch on
`splitext(filename)[1]`, decode, check support, and produce this file's
events; `Except.error` models an uncaught exception escaping the generator
(`Except.map` runs the branch body on a successful decode and passes a
decoder exception through untouched). -/
def processFile (code_point : Nat) (f : FSFile) : Except Unit (List Event) :=
  let file_path := join f.dirpath f.filename
  let file_extension := (splitext f.filename).2
  if TTF_EXTENSIONS.contains file_extension then
    Except.map (fun font =>
      if is_supporting_ttf font code_point
      then [Event.yieldId (get_ttf_family font)] else []) f.ttf
  else if file_extension = ".ttc".data then
    Except.map (fun fonts => fonts.filterMap (fun font =>
      if is_supporting_ttf font code_point
      then some (Event.yieldId (get_ttf_family font)) else none)) f.ttc
  else if file_extension = ".t1".data then
    Except.map (fun glyphs => t1Events file_path (is_supporting_t1 glyphs code_point)) f.t1
  else if UNREADABLE_FILE_TYPES.contains file_extension
          || (file_extension == ".gz".data
              && UNREADABLE_FILE_TYPES.contains (splitext (splitext f.filename).1).2) then
    .ok [.diagUnreadable file_path]
  else
    .ok []

/-- How one file's outcome extends the run: an uncaught exception kills the
generator (the events of the files after it are lost and the run is marked
aborted), a normal outcome contributes its events and leaves the rest of
the run as is. -/
def stepEvents (r : Except Unit (List Event)) (rest : List Event × Bool) :
    List Event × Bool :=
  match r with
  | .error _ => ([], false)
  | .ok evs => (evs ++ rest.1, rest.2)

/-- `get_supporting_fonts` (lines 116-159) over the stream of files found by
the (external) directory walk.  Returns the events produced before the
generator finished or died, and `true` iff it ran to completion (`false`
means an uncaught decode exception aborted the iteration, losing all
remaining files). -/
def get_supporting_fonts (code_point : Nat) : List FSFile → List Event × Bool
  | [] => ([], true)
  | f :: fs =>
    stepEvents (processFile code_point f) (get_supporting_fonts code_point fs)

deriving instance DecidableEq for Except

/-- Modelled from the spec's wording for the metadata-variant extractor, as
amended: the record chosen as family. -/
def isFamilyStart (n : NameRecord) : Bool :=
  n.nameID == 1 && !n.string.isEmpty

/-- Modelled from the spec's wording, as amended: once a family is fixed,
the subfamily is the string of the first following record with nameID 2,
unless a record with nameID 1 comes first, in which case it is empty. -/
def subfamilySpec (ns : List NameRecord) : Str :=
  match ns.find? (fun n => n.nameID == 1 || n.nameID == 2) with
  | some n => if n.nameID == 2 then n.string else []
  | none => []

/-- Modelled from the spec's wording, as amended: the family is the first
nameID-1 record whose decoded string is non-empty (empty decodes leave the
scan open); the subfamily is then looked up in the remaining records via
`subfamilySpec`; with no non-empty family record, both components are
empty. -/
def extractSpec (ns : List NameRecord) : Str × Str :=
  match ns.find? isFamilyStart with
  | none => ([], [])
  | some n =>
    (n.string, subfamilySpec ((ns.dropWhile (fun m => !isFamilyStart m)).tail))

/-- Sample TTF font supporting code point 65 through a Unicode subtable. -/
def fontGood : TTFontData :=
  ⟨[⟨true, [65]⟩], [⟨1, "Good".data⟩, ⟨2, "Regular".data⟩]⟩

/-- Sample file that decodes fine and supports code point 65. -/
def fGood : FSFile :=
  ⟨"d".data, "good.ttf".data, .ok fontGood, .ok [], .ok []⟩

/-- Sample file whose bytes make the `TTFont` constructor raise. -/
def fBad : FSFile :=
  ⟨"d".data, "bad.ttf".data, .error (), .ok [], .ok []⟩

/-- Sample Type 1 file with an empty glyph set (support undeterminable). -/
def fT1 : FSFile :=
  ⟨"d".data, "empty.t1".data, .error (), .error (), .ok []⟩

/-- Sample unreadable file (extension `.pfa`); all decoders would raise,
which shows no decode is ever attempted on it. -/
def fPfa : FSFile :=
  ⟨"d".data, "x.pfa".data, .error (), .error (), .error ()⟩

/-- Sample file of unrecognized extension; all decoders would raise. -/
def fUnknown : FSFile :=
  ⟨"d".data, "x.xyz".data, .error (), .error (), .error ()⟩

/-- Sample collection file with two members of which only the first
supports code point 65. -/
def fTtc : FSFile :=
  ⟨"d".data, "two.ttc".data, .error (),
   .ok [fontGood, ⟨[⟨true, [66]⟩], [⟨1, "Other".data⟩]⟩], .ok []⟩

/-! Helper lemmas. -/

theorem is_supporting_t1_eq (glyphs : List Str) (cp : Nat) :
    is_supporting_t1 glyphs cp
      = if glyphs.any (fun k => glyphMatches k cp) then some true else none := by
  induction glyphs with
  | nil => rfl
  | cons k ks ih =>
    by_cases h : glyphMatches k cp = true
    · simp [is_supporting_t1, h]
    · simp [is_supporting_t1, h, ih]

theorem isUpperHexDigit_iff (d : Char) :
    isUpperHexDigit d = true ↔ ('0' ≤ d ∧ d ≤ '9') ∨ ('A' ≤ d ∧ d ≤ 'F') := by
  simp [isUpperHexDigit]

theorem uniFullmatch_iff (k : Str) :
    uniFullmatch k = true ↔
      ∃ s : Str, k = 'u' :: 'n' :: 'i' :: s ∧ s ≠ [] ∧ s.all isUpperHexDigit = true := by
  unfold uniFullmatch
  constructor
  · intro h
    have h1 : k.take 3 = "uni".data := by
      have := (Bool.and_eq_true _ _).mp ((Bool.and_eq_true _ _).mp h).1
      exact beq_iff_eq.mp this.1
    have h2 : ¬(k.drop 3).isEmpty = true := by
      have := (Bool.and_eq_true _ _).mp ((Bool.and_eq_true _ _).mp h).1
      simpa using this.2
    have h3 : (k.drop 3).all isUpperHexDigit = true :=
      ((Bool.and_eq_true _ _).mp h).2
    refine ⟨k.drop 3, ?_, by simpa [List.isEmpty_iff] using h2, h3⟩
    conv_lhs => rw [← List.take_append_drop 3 k, h1]
    rfl
  · rintro ⟨s, rfl, hs, hall⟩
    have ht : (('u' :: 'n' :: 'i' :: s).take 3 == "uni".data) = true := by rfl
    have hd : ('u' :: 'n' :: 'i' :: s).drop 3 = s := rfl
    rw [hd]
    simp [ht, hall, List.isEmpty_iff, hs]

theorem glyphMatches_iff (k : Str) (cp : Nat) :
    glyphMatches k cp = true ↔
      (∃ ch : Char, k = [ch] ∧ ch.toNat = cp)
      ∨ (∃ s : Str, k = 'u' :: 'n' :: 'i' :: s ∧ s ≠ []
           ∧ (∀ d ∈ s, ('0' ≤ d ∧ d ≤ '9') ∨ ('A' ≤ d ∧ d ≤ 'F'))
           ∧ hexVal s = cp) := by
  unfold glyphMatches
  simp only [Bool.or_eq_true, Bool.and_eq_true, beq_iff_eq]
  constructor
  · rintro (⟨hlen, hcp⟩ | ⟨huni, hcp⟩)
    · obtain ⟨ch, rfl⟩ := List.length_eq_one.mp (by exact_mod_cast hlen)
      exact .inl ⟨ch, rfl, hcp.symm⟩
    · obtain ⟨s, rfl, hs, hall⟩ := (uniFullmatch_iff _).mp huni
      refine .inr ⟨s, rfl, hs, ?_, ?_⟩
      · intro d hd
        exact (isUpperHexDigit_iff d).mp (List.all_eq_true.mp hall d hd)
      · exact hcp.symm
  · rintro (⟨ch, rfl, rfl⟩ | ⟨s, rfl, hs, hall, rfl⟩)
    · exact .inl ⟨rfl, rfl⟩
    · refine .inr ⟨?_, rfl⟩
      exact (uniFullmatch_iff _).mpr
        ⟨s, rfl, hs, List.all_eq_true.mpr fun d hd => (isUpperHexDigit_iff d).mpr (hall d hd)⟩

/-! ## Claims -/

/-- C1: for every font whose cmap table has at least one subtable and every
code point, `is_supporting_ttf` is true iff the code point is a key of some
Unicode-flagged subtable; non-Unicode subtables never contribute, and with
zero Unicode-flagged subtables the result is the definitive boolean
`false`. -/
theorem ttf_support_iff_unicode_subtable_key (font : TTFontData) (cp : Nat)
    (_h : font.cmapTables ≠ []) :
    (is_supporting_ttf font cp = true ↔
      ∃ t ∈ font.cmapTables, t.isUnicode = true ∧ cp ∈ t.cmap)
    ∧ ((∀ t ∈ font.cmapTables, t.isUnicode = false) →
        is_supporting_ttf font cp = false) := by
  have hiff : is_supporting_ttf font cp = true ↔
      ∃ t ∈ font.cmapTables, t.isUnicode = true ∧ cp ∈ t.cmap := by
    simp [is_supporting_ttf, List.any_eq_true, Bool.and_eq_true]
  refine ⟨hiff, fun hall => ?_⟩
  cases hx : is_supporting_ttf font cp with
  | false => rfl
  | true =>
    obtain ⟨t, ht, hu, _⟩ := hiff.mp hx
    rw [hall t ht] at hu
    exact absurd hu (by simp)

/-- C1 witness: `fontGood` has one (Unicode) subtable and supports 65. -/
theorem ttf_support_iff_unicode_subtable_key_witness :
    fontGood.cmapTables ≠ [] ∧ is_supporting_ttf fontGood 65 = true :=
  ⟨by decide,
   (ttf_support_iff_unicode_subtable_key fontGood 65 (by decide)).1.mpr
     ⟨⟨true, [65]⟩, by decide, rfl, by decide⟩⟩

/-- C4: `is_supporting_t1` never returns `some false` (NotSupported); it is
`some true` exactly when some glyph name matches and `none` exactly when
the whole glyph set is exhausted without a match. -/
theorem t1_result_supported_or_undetermined (glyphs : List Str) (cp : Nat) :
    (is_supporting_t1 glyphs cp = some true ∨ is_supporting_t1 glyphs cp = none)
    ∧ is_supporting_t1 glyphs cp ≠ some false
    ∧ (is_supporting_t1 glyphs cp = some true ↔
        ∃ k ∈ glyphs, glyphMatches k cp = true)
    ∧ (is_supporting_t1 glyphs cp = none ↔
        ∀ k ∈ glyphs, glyphMatches k cp = false) := by
  have he := is_supporting_t1_eq glyphs cp
  by_cases h : glyphs.any (fun k => glyphMatches k cp) = true
  · rw [he, if_pos h]
    refine ⟨.inl rfl, by simp, by simp [← List.any_eq_true, h], ?_⟩
    constructor
    · intro hx
      exact absurd hx (by simp)
    · intro hall
      obtain ⟨k, hk, hm⟩ := List.any_eq_true.mp h
      rw [hall k hk] at hm
      exact absurd hm (by simp)
  · rw [he, if_neg h]
    have hall : ∀ k ∈ glyphs, glyphMatches k cp = false := by
      intro k hk
      cases hm : glyphMatches k cp with
      | false => rfl
      | true => exact absurd (List.any_eq_true.mpr ⟨k, hk, hm⟩) h
    refine ⟨.inr rfl, by simp, ?_, iff_of_true rfl hall⟩
    constructor
    · intro hx
      exact absurd hx (by simp)
    · intro ⟨k, hk, hm⟩
      rw [hall k hk] at hm
      exact absurd hm (by simp)

/-- C4 witness: on an empty glyph set the result is not `some false`. -/
theorem t1_result_supported_or_undetermined_witness :
    is_supporting_t1 ([] : List Str) 0 ≠ some false :=
  (t1_result_supported_or_undetermined [] 0).2.1

/-- C5: `is_supporting_t1` returns Supported exactly when the glyph set has
a name that is a single character of ordinal `cp`, or `uni` followed by one
or more uppercase hex digits of value `cp`; in particular a set containing
"A" supports 65, and likewise one containing "uni0041". -/
theorem t1_supported_iff_name_match (glyphs : List Str) (cp : Nat) :
    (is_supporting_t1 glyphs cp = some true ↔
      ∃ k ∈ glyphs,
        (∃ ch : Char, k = [ch] ∧ ch.toNat = cp)
        ∨ (∃ s : Str, k = 'u' :: 'n' :: 'i' :: s ∧ s ≠ []
             ∧ (∀ d ∈ s, ('0' ≤ d ∧ d ≤ '9') ∨ ('A' ≤ d ∧ d ≤ 'F'))
             ∧ hexVal s = cp))
    ∧ ("A".data ∈ glyphs → is_supporting_t1 glyphs 65 = some true)
    ∧ ("uni0041".data ∈ glyphs → is_supporting_t1 glyphs 65 = some true) := by
  have main : ∀ c, is_supporting_t1 glyphs c = some true ↔
      ∃ k ∈ glyphs,
        (∃ ch : Char, k = [ch] ∧ ch.toNat = c)
        ∨ (∃ s : Str, k = 'u' :: 'n' :: 'i' :: s ∧ s ≠ []
             ∧ (∀ d ∈ s, ('0' ≤ d ∧ d ≤ '9') ∨ ('A' ≤ d ∧ d ≤ 'F'))
             ∧ hexVal s = c) := by
    intro c
    have hany : is_supporting_t1 glyphs c = some true ↔
        glyphs.any (fun k => glyphMatches k c) = true := by
      rw [is_supporting_t1_eq]
      by_cases h : glyphs.any (fun k => glyphMatches k c) = true
      · simp [h]
      · simp [h]
    rw [hany, List.any_eq_true]
    exact exists_congr fun k => and_congr_right fun _ => glyphMatches_iff k c
  refine ⟨main cp, fun hA => ?_, fun hU => ?_⟩
  · exact (main 65).mpr ⟨"A".data, hA, .inl ⟨'A', by decide, by decide⟩⟩
  · exact (main 65).mpr
      ⟨"uni0041".data, hU, .inr ⟨"0041".data, by decide, by decide, by decide, by decide⟩⟩

/-- C5 witness: a glyph set containing "A" and "uni0041" supports 65. -/
theorem t1_supported_iff_name_match_witness :
    is_supporting_t1 ["A".data, "uni0041".data] 65 = some true :=
  (t1_supported_iff_name_match ["A".data, "uni0041".data] 65).2.1 (by decide)

theorem famLoop_of_ne (ns : List NameRecord) (fam : Str) (hfam : fam ≠ []) :
    famLoop ns fam = (fam, subfamilySpec ns) := by
  induction ns with
  | nil => simp [famLoop, subfamilySpec]
  | cons n ns ih =>
    by_cases h1 : n.nameID = 1
    · rw [famLoop, if_pos h1, if_neg hfam, subfamilySpec,
        List.find?_cons_of_pos _ (by simp [h1])]
      simp [h1]
    · by_cases h2 : n.nameID = 2
      · rw [famLoop, if_neg h1, if_pos ⟨h2, hfam⟩, subfamilySpec,
          List.find?_cons_of_pos _ (by simp [h2])]
        simp [h2]
      · rw [famLoop, if_neg h1, if_neg (by intro hx; exact h2 hx.1), ih, subfamilySpec,
          subfamilySpec, List.find?_cons_of_neg _ (by simp [h1, h2])]

theorem famLoop_nil_eq_extractSpec (ns : List NameRecord) :
    famLoop ns [] = extractSpec ns := by
  induction ns with
  | nil => simp [famLoop, extractSpec]
  | cons n ns ih =>
    by_cases h1 : n.nameID = 1
    · by_cases hs : n.string = []
      · have hstart : isFamilyStart n = false := by
          simp [isFamilyStart, hs]
        rw [famLoop, if_pos h1, if_pos rfl, hs, ih, extractSpec, extractSpec,
          List.find?_cons_of_neg _ (by simp [hstart]),
          List.dropWhile_cons_of_pos (by simp [hstart])]
      · have hstart : isFamilyStart n = true := by
          simp [isFamilyStart, h1, hs]
        rw [famLoop, if_pos h1, if_pos rfl, famLoop_of_ne ns n.string hs, extractSpec,
          List.find?_cons_of_pos _ hstart,
          List.dropWhile_cons_of_neg (by simp [hstart])]
        rfl
    · have hstart : isFamilyStart n = false := by
        simp [isFamilyStart, h1]
      rw [famLoop, if_neg h1, if_neg (by intro hx; exact hx.2 rfl), ih, extractSpec,
        extractSpec, List.find?_cons_of_neg _ (by simp [hstart]),
        List.dropWhile_cons_of_pos (by simp [hstart])]

theorem famLoop_fst_nil (ns : List NameRecord) (fam : Str)
    (h : (famLoop ns fam).1 = []) : (famLoop ns fam).2 = [] := by
  induction ns generalizing fam with
  | nil => rfl
  | cons n ns ih =>
    by_cases h1 : n.nameID = 1
    · by_cases hfam : fam = []
      · rw [famLoop, if_pos h1, if_pos hfam] at h ⊢
        exact ih _ h
      · rw [famLoop, if_pos h1, if_neg hfam]
    · by_cases h2 : n.nameID = 2 ∧ fam ≠ []
      · rw [famLoop, if_neg h1, if_pos h2] at h
        exact absurd h h2.2
      · rw [famLoop, if_neg h1, if_neg h2] at h ⊢
        exact ih _ h

/-- C6 counterexample: when the first nameID-1 record decodes to the empty
string, the scan does not take it as the family nor stop at the second
nameID-1 record: the claim predicts `("", "")` on these records, while the
code returns `("Serif", "Italic")`. -/
theorem ttf_family_first_record_cex :
    get_ttf_family ⟨[], [⟨1, []⟩, ⟨1, "Serif".data⟩, ⟨2, "Italic".data⟩]⟩
        = ("Serif".data, "Italic".data)
      ∧ get_ttf_family ⟨[], [⟨1, []⟩, ⟨1, "Serif".data⟩, ⟨2, "Italic".data⟩]⟩
        ≠ (([] : Str), ([] : Str)) := by
  exact ⟨by decide, by decide⟩

/-- C6 (amended): `get_ttf_family` takes as family the first nameID-1
record whose decoded string is non-empty (a record decoding to the empty
string leaves the scan open); after that, the scan stops at the next
nameID-1 or nameID-2 record, taking the subfamily from it only in the
nameID-2 case; with no non-empty nameID-1 record both components are
empty.  On the records [(1,"Sans"), (2,"Bold"), (1,"Serif"), (2,"Italic")]
the result is ("Sans","Bold"). -/
theorem ttf_family_first_nonempty_family (font : TTFontData) :
    get_ttf_family font = extractSpec font.names
      ∧ get_ttf_family
          ⟨[], [⟨1, "Sans".data⟩, ⟨2, "Bold".data⟩, ⟨1, "Serif".data⟩, ⟨2, "Italic".data⟩]⟩
        = ("Sans".data, "Bold".data) :=
  ⟨famLoop_nil_eq_extractSpec font.names, by decide⟩

theorem famLoop_skip_empties (pre rest : List NameRecord)
    (hpre : ∀ n ∈ pre, n.nameID = 1 → n.string = []) :
    famLoop (pre ++ rest) [] = famLoop rest [] := by
  induction pre with
  | nil => rfl
  | cons n pre ih =>
    have ihpre : ∀ m ∈ pre, m.nameID = 1 → m.string = [] :=
      fun m hm => hpre m (List.mem_cons_of_mem n hm)
    rw [List.cons_append]
    by_cases h1 : n.nameID = 1
    · rw [famLoop, if_pos h1, if_pos rfl, hpre n (List.mem_cons_self n pre) h1]
      exact ih ihpre
    · rw [famLoop, if_neg h1, if_neg (by intro hx; exact hx.2 rfl)]
      exact ih ihpre

/-- C10: the empty string is the "no family yet" sentinel in
`get_ttf_family`.  With `pre` any run of records in which every nameID-1
record decodes to the empty string (it may also hold nameID-2 or other
records): a `⟨1, ""⟩` record after `pre` acts as if absent; the scan does
not stop there but adopts as family the next non-empty nameID-1 record
after `pre`, continuing the subfamily search only past it; everything in
`pre` — in particular any nameID-2 record occurring before the first
non-empty nameID-1 record — is ignored outright, never accepted as
subfamily; no subfamily is ever returned with an empty family; and when
every nameID-1 record of the whole list decodes to the empty string the
result is `("", "")`. -/
theorem empty_family_sentinel :
    (∀ (tables : List CmapTable) (pre ns : List NameRecord),
      (∀ n ∈ pre, n.nameID = 1 → n.string = []) →
      get_ttf_family ⟨tables, pre ++ ⟨1, []⟩ :: ns⟩ = get_ttf_family ⟨tables, pre ++ ns⟩)
    ∧ (∀ (tables : List CmapTable) (pre : List NameRecord) (s : Str) (ns : List NameRecord),
      (∀ n ∈ pre, n.nameID = 1 → n.string = []) → s ≠ [] →
      get_ttf_family ⟨tables, pre ++ ⟨1, s⟩ :: ns⟩ = (s, subfamilySpec ns))
    ∧ (∀ (tables : List CmapTable) (pre rest : List NameRecord),
      (∀ n ∈ pre, n.nameID = 1 → n.string = []) →
      get_ttf_family ⟨tables, pre ++ rest⟩ = get_ttf_family ⟨tables, rest⟩)
    ∧ (∀ font : TTFontData,
        (get_ttf_family font).1 = [] → (get_ttf_family font).2 = [])
    ∧ (∀ (tables : List CmapTable) (ns : List NameRecord),
        (∀ n ∈ ns, n.nameID = 1 → n.string = []) →
        get_ttf_family ⟨tables, ns⟩ = ([], [])) := by
  refine ⟨fun tables pre ns hpre => ?_, fun tables pre s ns hpre hs => ?_,
    fun tables pre rest hpre => famLoop_skip_empties pre rest hpre,
    fun font h => famLoop_fst_nil font.names [] h, fun tables ns hall => ?_⟩
  · calc get_ttf_family ⟨tables, pre ++ ⟨1, []⟩ :: ns⟩
        = famLoop (⟨1, ([] : Str)⟩ :: ns) [] := famLoop_skip_empties pre _ hpre
      _ = famLoop ns [] := rfl
      _ = famLoop (pre ++ ns) [] := (famLoop_skip_empties pre ns hpre).symm
  · calc get_ttf_family ⟨tables, pre ++ ⟨1, s⟩ :: ns⟩
        = famLoop (⟨1, s⟩ :: ns) [] := famLoop_skip_empties pre _ hpre
      _ = famLoop ns s := by rw [famLoop, if_pos rfl, if_pos rfl]
      _ = (s, subfamilySpec ns) := famLoop_of_ne ns s hs
  · have h := famLoop_skip_empties ns [] hall
    rw [List.append_nil] at h
    exact h

/-- C10 witness: a nameID-2 record before the only nameID-1 record is
ignored outright (not taken as subfamily), and an empty-decoding nameID-1
record sitting between other records acts as if absent. -/
theorem empty_family_sentinel_witness :
    get_ttf_family ⟨[], [⟨2, "Bold".data⟩, ⟨1, "Sans".data⟩]⟩
        = get_ttf_family ⟨[], [⟨1, "Sans".data⟩]⟩
      ∧ get_ttf_family ⟨[], [⟨3, "x".data⟩, ⟨1, []⟩, ⟨1, "Serif".data⟩, ⟨2, "It".data⟩]⟩
        = get_ttf_family ⟨[], [⟨3, "x".data⟩, ⟨1, "Serif".data⟩, ⟨2, "It".data⟩]⟩ :=
  ⟨empty_family_sentinel.2.2.1 [] [⟨2, "Bold".data⟩] [⟨1, "Sans".data⟩] (by decide),
   empty_family_sentinel.1 [] [⟨3, "x".data⟩] [⟨1, "Serif".data⟩, ⟨2, "It".data⟩] (by decide)⟩

theorem rsplit1_not_mem (c : Char) (s : Str) (h : c ∉ s) : rsplit1 c s = [s] := by
  induction s with
  | nil => rfl
  | cons x xs ih =>
    have hx : ¬x = c := fun he => h (List.mem_cons.mpr (.inl he.symm))
    have hxs : c ∉ xs := fun hm => h (List.mem_cons_of_mem x hm)
    rw [rsplit1, ih hxs]
    show (if x = c then [([] : Str), xs] else [x :: xs]) = [x :: xs]
    rw [if_neg hx]

theorem rsplit1_mem (c : Char) (s : Str) (h : c ∈ s) :
    ∃ a b, rsplit1 c s = [a, b] ∧ a ++ c :: b = s ∧ c ∉ b := by
  induction s with
  | nil => cases h
  | cons x xs ih =>
    by_cases hc : c ∈ xs
    · obtain ⟨a, b, h1, h2, h3⟩ := ih hc
      refine ⟨x :: a, b, ?_, by rw [List.cons_append, h2], h3⟩
      rw [rsplit1, h1]
    · have hx : x = c := by
        rcases List.mem_cons.mp h with h' | h'
        · exact h'.symm
        · exact absurd h' hc
      refine ⟨[], xs, ?_, by simp [hx], hc⟩
      rw [rsplit1, rsplit1_not_mem c xs hc]
      show (if x = c then [([] : Str), xs] else [x :: xs]) = [[], xs]
      rw [if_pos hx]

/-- C7: `get_t1_family` strips the extension from the base name and splits
on the last hyphen: with a hyphen present the family/subfamily are the
segments left and right of the last hyphen, otherwise the whole stem is
the family and the subfamily is empty; "NotoSans-Bold.t1" gives
("NotoSans","Bold") and "NotoSans.t1" gives ("NotoSans",""). -/
theorem t1_family_last_hyphen (p b : Str) (hb : b = (splitext (basename p)).1) :
    ('-' ∉ b → get_t1_family p = (b, []))
    ∧ ('-' ∈ b → ∃ fam sub, get_t1_family p = (fam, sub)
        ∧ fam ++ '-' :: sub = b ∧ '-' ∉ sub)
    ∧ get_t1_family ("NotoSans-Bold.t1".data) = ("NotoSans".data, "Bold".data)
    ∧ get_t1_family ("NotoSans.t1".data) = ("NotoSans".data, []) := by
  refine ⟨fun hnm => ?_, fun hm => ?_, by decide, by decide⟩
  · rw [get_t1_family, ← hb, rsplit1_not_mem '-' b hnm]
  · obtain ⟨a, d, h1, h2, h3⟩ := rsplit1_mem '-' b hm
    refine ⟨a, d, ?_, h2, h3⟩
    rw [get_t1_family, ← hb, h1]

/-- C7 witness: the stem of "NotoSans-Bold.t1" splits at its last hyphen. -/
theorem t1_family_last_hyphen_witness :
    ∃ fam sub, get_t1_family ("NotoSans-Bold.t1".data) = (fam, sub)
      ∧ fam ++ '-' :: sub = "NotoSans-Bold".data ∧ '-' ∉ sub :=
  (t1_family_last_hyphen ("NotoSans-Bold.t1".data) ("NotoSans-Bold".data)
    (by decide)).2.1 (by decide)

/-! Branch lemmas for `processFile`. -/

theorem processFile_ttf (cp : Nat) (f : FSFile) (r : Except Unit TTFontData)
    (hext : TTF_EXTENSIONS.contains (splitext f.filename).2 = true)
    (hdec : f.ttf = r) :
    processFile cp f = Except.map (fun font =>
      if is_supporting_ttf font cp
      then [Event.yieldId (get_ttf_family font)] else []) r := by
  simp only [processFile]
  rw [if_pos hext, hdec]

theorem processFile_ttc (cp : Nat) (f : FSFile) (r : Except Unit (List TTFontData))
    (hext : (splitext f.filename).2 = ".ttc".data)
    (hdec : f.ttc = r) :
    processFile cp f = Except.map (fun fonts => fonts.filterMap (fun font =>
      if is_supporting_ttf font cp
      then some (Event.yieldId (get_ttf_family font)) else none)) r := by
  simp only [processFile]
  rw [hext, if_neg (by decide : ¬(TTF_EXTENSIONS.contains (".ttc".data) = true)),
    if_pos rfl, hdec]

theorem processFile_t1 (cp : Nat) (f : FSFile) (r : Except Unit (List Str))
    (hext : (splitext f.filename).2 = ".t1".data)
    (hdec : f.t1 = r) :
    processFile cp f = Except.map (fun glyphs =>
      t1Events (join f.dirpath f.filename) (is_supporting_t1 glyphs cp)) r := by
  simp only [processFile]
  rw [hext, if_neg (by decide : ¬(TTF_EXTENSIONS.contains (".t1".data) = true)),
    if_neg (by decide : ¬((".t1".data : Str) = ".ttc".data)), if_pos rfl, hdec]

theorem processFile_unreadable (cp : Nat) (f : FSFile)
    (h1 : ¬(TTF_EXTENSIONS.contains (splitext f.filename).2 = true))
    (h2 : (splitext f.filename).2 ≠ ".ttc".data)
    (h3 : (splitext f.filename).2 ≠ ".t1".data)
    (h4 : (UNREADABLE_FILE_TYPES.contains (splitext f.filename).2
          || ((splitext f.filename).2 == ".gz".data
              && UNREADABLE_FILE_TYPES.contains (splitext (splitext f.filename).1).2))
        = true) :
    processFile cp f = .ok [.diagUnreadable (join f.dirpath f.filename)] := by
  simp only [processFile]
  rw [if_neg h1, if_neg h2, if_neg h3, if_pos h4]

theorem processFile_skip (cp : Nat) (f : FSFile)
    (h1 : ¬(TTF_EXTENSIONS.contains (splitext f.filename).2 = true))
    (h2 : (splitext f.filename).2 ≠ ".ttc".data)
    (h3 : (splitext f.filename).2 ≠ ".t1".data)
    (h4 : ¬((UNREADABLE_FILE_TYPES.contains (splitext f.filename).2
          || ((splitext f.filename).2 == ".gz".data
              && UNREADABLE_FILE_TYPES.contains (splitext (splitext f.filename).1).2))
        = true)) :
    processFile cp f = .ok [] := by
  simp only [processFile]
  rw [if_neg h1, if_neg h2, if_neg h3, if_neg h4]

theorem unreadable_ext_cases (ext : Str)
    (h : UNREADABLE_FILE_TYPES.contains ext = true) :
    ext = ".pfa".data ∨ ext = ".pfb".data ∨ ext = ".gsf".data ∨ ext = ".pcf".data := by
  have hm : ext ∈ UNREADABLE_FILE_TYPES := by simpa using h
  simpa [UNREADABLE_FILE_TYPES] using hm

/-- C2 counterexample: a file whose `TTFont` decode raises, followed by one
that decodes fine and supports code point 65, produces no identity at all
and an aborted run — while the good file alone would have yielded its
identity.  The claim's promise that the remaining files are still yielded
is false. -/
theorem decode_error_not_caught_cex :
    get_supporting_fonts 65 [fBad, fGood] = ([], false)
      ∧ get_supporting_fonts 65 [fGood]
        = ([Event.yieldId ("Good".data, "Regular".data)], true) :=
  ⟨by decide, by decide⟩

/-- C2 (amended): the decode error is NOT caught inside
`get_supporting_fonts` and no diagnostic is emitted for the failing file:
the exception propagates and aborts the iteration, so the files before the
failing one keep their yielded identities but the failing file and every
file after it yield nothing. -/
theorem decode_error_aborts_iteration (cp : Nat) (pre : List FSFile)
    (f : FSFile) (fs : List FSFile) (e : Unit) (evs : List Event)
    (hf : processFile cp f = .error e)
    (hpre : get_supporting_fonts cp pre = (evs, true)) :
    get_supporting_fonts cp (pre ++ f :: fs) = (evs, false) := by
  induction pre generalizing evs with
  | nil =>
    have hevs : evs = [] := by
      have h := hpre
      rw [get_supporting_fonts] at h
      exact ((Prod.mk.injEq _ _ _ _).mp h).1.symm
    subst hevs
    rw [List.nil_append, get_supporting_fonts, hf]
    rfl
  | cons g pre ih =>
    rw [get_supporting_fonts] at hpre
    rw [List.cons_append, get_supporting_fonts]
    cases hg : processFile cp g with
    | error e2 =>
      rw [hg, stepEvents] at hpre
      exact absurd (congrArg Prod.snd hpre) (by simp)
    | ok gevs =>
      rw [hg, stepEvents] at hpre
      have h2 : (get_supporting_fonts cp pre).2 = true := by
        simpa using congrArg Prod.snd hpre
      have h1 : gevs ++ (get_supporting_fonts cp pre).1 = evs := by
        simpa using congrArg Prod.fst hpre
      have hpre' : get_supporting_fonts cp pre = ((get_supporting_fonts cp pre).1, true) := by
        rw [← h2]
      rw [stepEvents, ih _ hpre', ← h1]

/-- C2 witness: one good file, then the failing one — the good file's
identity survives, the run is aborted. -/
theorem decode_error_aborts_iteration_witness :
    get_supporting_fonts 65 [fGood, fBad]
      = ([Event.yieldId ("Good".data, "Regular".data)], false) :=
  decode_error_aborts_iteration 65 [fGood] fBad [] () _ (by decide) (by decide)

/-- C8: a `.ttc` file is processed member by member with the same per-font
logic as a single `.ttf` file (check, then extract), with no cross-member
caching: the events are exactly the filter-map of the member list, and in
particular a two-member collection of which only the first member supports
the code point yields exactly that member's identity, while a collection
listing the same supporting member twice yields it twice. -/
theorem ttc_members_independent (cp : Nat) (f : FSFile) (fonts : List TTFontData)
    (hext : (splitext f.filename).2 = ".ttc".data)
    (hdec : f.ttc = .ok fonts) :
    processFile cp f = .ok (fonts.filterMap (fun font =>
        if is_supporting_ttf font cp
        then some (Event.yieldId (get_ttf_family font)) else none))
    ∧ (∀ f1 f2, fonts = [f1, f2] →
        is_supporting_ttf f1 cp = true → is_supporting_ttf f2 cp = false →
        processFile cp f = .ok [Event.yieldId (get_ttf_family f1)])
    ∧ (∀ f1, fonts = [f1, f1] → is_supporting_ttf f1 cp = true →
        processFile cp f
          = .ok [Event.yieldId (get_ttf_family f1), Event.yieldId (get_ttf_family f1)]) := by
  have hmain := processFile_ttc cp f (.ok fonts) hext hdec
  refine ⟨hmain, fun f1 f2 hf hs1 hs2 => ?_, fun f1 hf hs1 => ?_⟩
  · rw [hmain, hf]
    simp [Except.map, List.filterMap_cons, hs1, hs2]
  · rw [hmain, hf]
    simp [Except.map, List.filterMap_cons, hs1]

/-- C8 witness: the sample two-member collection `fTtc` (first member
supports 65, second does not) yields exactly the first member's
identity. -/
theorem ttc_members_independent_witness :
    processFile 65 fTtc = .ok [Event.yieldId ("Good".data, "Regular".data)] :=
  (ttc_members_independent 65 fTtc
      [fontGood, ⟨[⟨true, [66]⟩], [⟨1, "Other".data⟩]⟩] (by decide) (by decide)).2.1
    fontGood ⟨[⟨true, [66]⟩], [⟨1, "Other".data⟩]⟩ rfl (by decide) (by decide)

/-- C9: a file whose extension is one of the unreadable types, or `.gz`
wrapping one of them, gets exactly one diagnostic and yields nothing — and
since this holds for every decoder oracle (including all-raising ones), no
decode is ever attempted; a file with any other unrecognized extension is
silently skipped: no diagnostic, no identity. -/
theorem unreadable_diag_unknown_skip (cp : Nat) (f : FSFile) :
    ((UNREADABLE_FILE_TYPES.contains (splitext f.filename).2 = true
        ∨ ((splitext f.filename).2 = ".gz".data
            ∧ UNREADABLE_FILE_TYPES.contains (splitext (splitext f.filename).1).2 = true)) →
      processFile cp f = .ok [Event.diagUnreadable (join f.dirpath f.filename)])
    ∧ (TTF_EXTENSIONS.contains (splitext f.filename).2 = false →
        (splitext f.filename).2 ≠ ".ttc".data →
        (splitext f.filename).2 ≠ ".t1".data →
        UNREADABLE_FILE_TYPES.contains (splitext f.filename).2 = false →
        ((splitext f.filename).2 = ".gz".data →
          UNREADABLE_FILE_TYPES.contains (splitext (splitext f.filename).1).2 = false) →
        processFile cp f = .ok []) := by
  constructor
  · intro h
    have h4 : (UNREADABLE_FILE_TYPES.contains (splitext f.filename).2
          || ((splitext f.filename).2 == ".gz".data
              && UNREADABLE_FILE_TYPES.contains (splitext (splitext f.filename).1).2))
        = true := by
      rcases h with h | ⟨hgz, hin⟩
      · rw [h]
        rfl
      · rw [hgz, hin]
        decide
    have h123 : ¬(TTF_EXTENSIONS.contains (splitext f.filename).2 = true)
        ∧ (splitext f.filename).2 ≠ ".ttc".data
        ∧ (splitext f.filename).2 ≠ ".t1".data := by
      rcases h with h | ⟨hgz, _⟩
      · rcases unreadable_ext_cases _ h with h' | h' | h' | h' <;> rw [h'] <;>
          exact ⟨by decide, by decide, by decide⟩
      · rw [hgz]
        exact ⟨by decide, by decide, by decide⟩
    exact processFile_unreadable cp f h123.1 h123.2.1 h123.2.2 h4
  · intro h1 h2 h3 h4 h5
    have hB : ((splitext f.filename).2 == ".gz".data
        && UNREADABLE_FILE_TYPES.contains (splitext (splitext f.filename).1).2) = false := by
      by_cases hgz : (splitext f.filename).2 = ".gz".data
      · rw [h5 hgz]
        simp
      · have hb : ((splitext f.filename).2 == ".gz".data) = false := by
          simp [hgz]
        rw [hb]
        simp
    refine processFile_skip cp f (fun hc => ?_) h2 h3 ?_
    · rw [h1] at hc
      exact absurd hc (by decide)
    · rw [h4, hB]
      decide

/-- C9 witness: `fPfa` (extension `.pfa`, all decoders raising) gets the
diagnostic; `fUnknown` (extension `.xyz`) is silently skipped. -/
theorem unreadable_diag_unknown_skip_witness :
    processFile 65 fPfa = .ok [Event.diagUnreadable ("d/x.pfa".data)]
      ∧ processFile 65 fUnknown = .ok [] :=
  ⟨(unreadable_diag_unknown_skip 65 fPfa).1 (.inl (by decide)),
   (unreadable_diag_unknown_skip 65 fUnknown).2 (by decide) (by decide) (by decide)
     (by decide) (fun h => absurd h (by decide))⟩

/-- C3: an identity event is only ever produced by a file whose support
check came back Supported (`true` for the Unicode-mapped formats,
`some true` for Type 1); a Type 1 file whose check is undetermined (`none`)
produces exactly one diagnostic and never an identity; and every identity
in a whole run comes from some file's own events. -/
theorem yield_only_when_supported (cp : Nat) (f : FSFile) :
    (∀ evs id, processFile cp f = .ok evs → Event.yieldId id ∈ evs →
      (∃ font, f.ttf = .ok font ∧ is_supporting_ttf font cp = true
          ∧ id = get_ttf_family font)
      ∨ (∃ fonts font, f.ttc = .ok fonts ∧ font ∈ fonts
          ∧ is_supporting_ttf font cp = true ∧ id = get_ttf_family font)
      ∨ (∃ glyphs, f.t1 = .ok glyphs ∧ is_supporting_t1 glyphs cp = some true
          ∧ id = get_t1_family (join f.dirpath f.filename)))
    ∧ (∀ glyphs, (splitext f.filename).2 = ".t1".data → f.t1 = .ok glyphs →
        is_supporting_t1 glyphs cp = none →
        processFile cp f = .ok [Event.diagUndetermined (join f.dirpath f.filename)])
    ∧ (∀ (files : List FSFile) (id : Str × Str),
        Event.yieldId id ∈ (get_supporting_fonts cp files).1 →
        ∃ g ∈ files, ∃ gevs, processFile cp g = .ok gevs ∧ Event.yieldId id ∈ gevs) := by
  refine ⟨?_, ?_, ?_⟩
  · intro evs id h hm
    by_cases c1 : TTF_EXTENSIONS.contains (splitext f.filename).2 = true
    · cases hdec : f.ttf with
      | error e =>
        rw [processFile_ttf cp f _ c1 hdec] at h
        exact absurd h (by simp [Except.map])
      | ok font =>
        rw [processFile_ttf cp f _ c1 hdec] at h
        have hevs : evs = (if is_supporting_ttf font cp
            then [Event.yieldId (get_ttf_family font)] else []) := by
          simpa [Except.map] using h.symm
        subst hevs
        by_cases hs : is_supporting_ttf font cp = true
        · rw [if_pos hs] at hm
          have he : Event.yieldId id = Event.yieldId (get_ttf_family font) :=
            List.mem_singleton.mp hm
          have he' : id = get_ttf_family font := by
            injection he
          exact .inl ⟨font, rfl, hs, he'⟩
        · rw [if_neg hs] at hm
          cases hm
    · by_cases c2 : (splitext f.filename).2 = ".ttc".data
      · cases hdec : f.ttc with
        | error e =>
          rw [processFile_ttc cp f _ c2 hdec] at h
          exact absurd h (by simp [Except.map])
        | ok fonts =>
          rw [processFile_ttc cp f _ c2 hdec] at h
          have hevs : evs = fonts.filterMap (fun font =>
              if is_supporting_ttf font cp
              then some (Event.yieldId (get_ttf_family font)) else none) := by
            simpa [Except.map] using h.symm
          subst hevs
          obtain ⟨font, hfont, heq⟩ := List.mem_filterMap.mp hm
          by_cases hs : is_supporting_ttf font cp = true
          · rw [if_pos hs] at heq
            have he : Event.yieldId (get_ttf_family font) = Event.yieldId id := by
              injection heq
            have he' : get_ttf_family font = id := by
              injection he
            exact .inr (.inl ⟨fonts, font, rfl, hfont, hs, he'.symm⟩)
          · rw [if_neg hs] at heq
            exact absurd heq (by simp)
      · by_cases c3 : (splitext f.filename).2 = ".t1".data
        · cases hdec : f.t1 with
          | error e =>
            rw [processFile_t1 cp f _ c3 hdec] at h
            exact absurd h (by simp [Except.map])
          | ok glyphs =>
            rw [processFile_t1 cp f _ c3 hdec] at h
            have hevs : evs = t1Events (join f.dirpath f.filename)
                (is_supporting_t1 glyphs cp) := by
              simpa [Except.map] using h.symm
            subst hevs
            cases hsup : is_supporting_t1 glyphs cp with
            | none =>
              rw [hsup] at hm
              simp [t1Events] at hm
            | some b =>
              cases b with
              | false =>
                rw [hsup] at hm
                simp [t1Events] at hm
              | true =>
                rw [hsup] at hm
                simp [t1Events] at hm
                exact .inr (.inr ⟨glyphs, rfl, hsup, hm⟩)
        · by_cases c4 : (UNREADABLE_FILE_TYPES.contains (splitext f.filename).2
              || ((splitext f.filename).2 == ".gz".data
                  && UNREADABLE_FILE_TYPES.contains (splitext (splitext f.filename).1).2))
              = true
          · rw [processFile_unreadable cp f c1 c2 c3 c4] at h
            have hevs : evs = [Event.diagUnreadable (join f.dirpath f.filename)] := by
              simpa using h.symm
            subst hevs
            simp at hm
          · rw [processFile_skip cp f c1 c2 c3 c4] at h
            have hevs : evs = [] := by
              simpa using h.symm
            subst hevs
            cases hm
  · intro glyphs hext hdec hnone
    rw [processFile_t1 cp f (.ok glyphs) hext hdec]
    simp [Except.map, hnone, t1Events]
  · intro files id hm
    induction files with
    | nil => simp [get_supporting_fonts] at hm
    | cons g gs ih =>
      rw [get_supporting_fonts] at hm
      cases hg : processFile cp g with
      | error e =>
        rw [hg, stepEvents] at hm
        simp at hm
      | ok gevs =>
        rw [hg, stepEvents] at hm
        have hm' : Event.yieldId id ∈ gevs ++ (get_supporting_fonts cp gs).1 := hm
        rcases List.mem_append.mp hm' with hcase | hcase
        · exact ⟨g, List.mem_cons_self g gs, gevs, hg, hcase⟩
        · obtain ⟨g', hg', gevs', hpf', hmem'⟩ := ih hcase
          exact ⟨g', List.mem_cons_of_mem g hg', gevs', hpf', hmem'⟩

/-- C3 witness: the sample Type 1 file with an empty glyph set produces the
diagnostic and nothing else. -/
theorem yield_only_when_supported_witness :
    processFile 65 fT1 = .ok [Event.diagUndetermined ("d/empty.t1".data)] :=
  (yield_only_when_supported 65 fT1).2.1 [] (by decide) (by decide) (by decide)

end Fontsearch
